import Mathlib

/-!
Verification of the schema.org structured-data validator
(`lighthouse-core/lib/sd-validation/schema-validator.js`).

The JavaScript source is shallowly embedded below.  Machine strings are
`String` (lists of characters), the fuel parameter `fuel : Nat` makes the
recursive property resolution total (`none` marks a computation that has not
terminated within the given fuel, i.e. divergence of the unbounded original),
and a thrown JavaScript exception is an `Except.error`.
-/

/-! ### String helpers: the regular expressions of the source -/

/-- Characters of the schema.org URL pattern with the `https` scheme. -/
def httpsUrlCh : List Char := "https://schema.org/".data

/-- Characters of the schema.org URL pattern with the `http` scheme. -/
def httpUrlCh : List Char := "http://schema.org/".data

/-- If `pat` is an initial segment of `l`, return the remainder of `l`. -/
def dropPrefixCh : List Char → List Char → Option (List Char)
  | [], l => some l
  | _ :: _, [] => none
  | p :: ps, c :: cs => if p = c then dropPrefixCh ps cs else none

/-- A match of `SCHEMA_ORG_URL_REGEX = /https?:\/\/schema\.org\//` starting at
the head of `l`: the alternatives `https://schema.org/` and
`http://schema.org/` cannot both match at one position (they differ at the
fifth character), so trying them in either order is faithful. -/
def matchSchemaUrl (l : List Char) : Option (List Char) :=
  match dropPrefixCh httpsUrlCh l with
  | some rest => some rest
  | none => dropPrefixCh httpUrlCh l

/-- `String.prototype.replace` with the non-global `SCHEMA_ORG_URL_REGEX` and
an empty replacement: delete the leftmost match of the pattern, anywhere in
the string, and leave the string unchanged when there is no match. -/
def replaceFirstSchemaUrl : List Char → List Char
  | [] => []
  | c :: cs =>
    match matchSchemaUrl (c :: cs) with
    | some rest => rest
    | none => c :: replaceFirstSchemaUrl cs

/-- `cleanName(uri)` of the source: `uri.replace(SCHEMA_ORG_URL_REGEX, '')`. -/
def cleanName (uri : String) : String :=
  ⟨replaceFirstSchemaUrl uri.data⟩

/-- Whether `SCHEMA_ORG_URL_REGEX` matches somewhere in the character list. -/
def containsSchemaUrlCh : List Char → Bool
  | [] => false
  | c :: cs => (matchSchemaUrl (c :: cs)).isSome || containsSchemaUrlCh cs

/-- `SCHEMA_ORG_URL_REGEX.test(type)` of the source (the regex has no `g`
flag, so `test` is stateless). -/
def containsSchemaUrl (type : String) : Bool :=
  containsSchemaUrlCh type.data

/-- The `key.replace` with the anchored regex `-(input|output)$` and empty
replacement in the source: strip one trailing
`-input` or `-output` marker (the two alternatives cannot both be suffixes of
one string, and an inner occurrence is not followed by the end anchor). -/
def stripConstraint (key : String) : String :=
  if ("-input".data).isSuffixOf key.data then ⟨key.data.take (key.data.length - 6)⟩
  else if ("-output".data).isSuffixOf key.data then ⟨key.data.take (key.data.length - 7)⟩
  else key

/-- `key.indexOf('@') !== 0` of the source, negated: the first character of
`key` is `@` exactly when the first occurrence of `@` is at index 0. -/
def isKeywordKey (key : String) : Bool :=
  match key.data with
  | [] => false
  | c :: _ => c == '@'

/-! ### The type graph (`schema-tree.json` shape) -/

/-- One entry of `schemaStructure.types` or `schemaStructure.properties`:
a name and a list of parent type names. -/
structure SchemaEntry where
  name : String
  parent : List String
deriving DecidableEq, Repr

/-- The loaded `schemaStructure`: the two collections of the static
schema.org snapshot. -/
structure SchemaStructure where
  types : List SchemaEntry
  properties : List SchemaEntry
deriving DecidableEq, Repr

/-- `findType(type)` of the source: clean the name and look it up among the
type entries by exact name match. -/
def findType (s : SchemaStructure) (type : String) : Option SchemaEntry :=
  s.types.find? (fun typeObj => typeObj.name == cleanName type)

/-- The `parentTypes.reduce((allProps, type) => allProps.concat(getPropsForType(type)), props)`
loop of `getPropsForType`, with the recursive call abstracted as `resolve`.
A thrown exception (`Except.error`) or exhausted fuel (`none`) at any parent
aborts the whole fold, as in JavaScript. -/
def concatParentProps (resolve : String → Option (Except String (List String))) :
    List String → List String → Option (Except String (List String))
  | [], allProps => some (Except.ok allProps)
  | type :: rest, allProps =>
    match resolve type with
    | none => none
    | some (Except.error e) => some (Except.error e)
    | some (Except.ok ps) => concatParentProps resolve rest (allProps ++ ps)

/-- `getPropsForType(type)` of the source, with fuel bounding the recursion
depth: collect the names of the property entries whose `parent` list contains
the cleaned type name, throw when the type itself is not found, and otherwise
concatenate the recursively resolved properties of every parent type. -/
def getPropsForTypeF (s : SchemaStructure) : Nat → String → Option (Except String (List String))
  | 0, _ => none
  | fuel + 1, type =>
    let props := (s.properties.filter
      (fun prop => prop.parent.contains (cleanName type))).map (fun prop => prop.name)
    match findType s type with
    | none => some (Except.error ("Unable to get props for missing type \"" ++ type ++ "\""))
    | some foundType => concatParentProps (getPropsForTypeF s fuel) foundType.parent props

/-! ### `validateObjectKeys` -/

/-- The dynamic type of the `typeOrTypes` argument, after the
`typeof typeOrTypes === 'string'` / `Array.isArray(typeOrTypes)` dispatch of
the source: a single string, an array of strings, or any other value. -/
inductive TypeOrTypes where
  | str : String → TypeOrTypes
  | arr : List String → TypeOrTypes
  | other : TypeOrTypes
deriving DecidableEq, Repr

/-- The `types` list built by the dispatch at the top of `validateObjectKeys`;
`none` for the `return ['Unknown value type']` branch. -/
def typesOf : TypeOrTypes → Option (List String)
  | .str t => some [t]
  | .arr ts => some ts
  | .other => none

/-- The `types.forEach(type => { getPropsForType(type).forEach(push) })` loop
of `validateObjectKeys` that accumulates the safelist; an exception or
exhausted fuel in `getPropsForType` aborts it. -/
def buildSafelist (resolve : String → Option (Except String (List String))) :
    List String → List String → Option (Except String (List String))
  | [], safelist => some (Except.ok safelist)
  | type :: rest, safelist =>
    match resolve type with
    | none => none
    | some (Except.error e) => some (Except.error e)
    | some (Except.ok knownProps) => buildSafelist resolve rest (safelist ++ knownProps)

/-- `validateObjectKeys(typeOrTypes, keys)` of the source.  The
`unknownTypes.length` test of the source is rendered as the (negated)
`isEmpty` test; the two branches are those of the source. -/
def validateObjectKeysF (s : SchemaStructure) (fuel : Nat) (typeOrTypes : TypeOrTypes)
    (keys : List String) : Option (Except String (List String)) :=
  match typesOf typeOrTypes with
  | none => some (Except.ok ["Unknown value type"])
  | some types =>
    let unknownTypes := types.filter (fun t => (findType s t).isNone)
    if unknownTypes.isEmpty then
      match buildSafelist (getPropsForTypeF s fuel) types [] with
      | none => none
      | some (Except.error e) => some (Except.error e)
      | some (Except.ok safelist) =>
        let cleanKeys := (keys.filter (fun key => !isKeywordKey key)).map cleanName
        some (Except.ok (((cleanKeys.map stripConstraint).filter
          (fun key => !safelist.contains key)).map
          (fun key => "Unexpected property \"" ++ key ++ "\"")))
    else
      some (Except.ok ((unknownTypes.filter containsSchemaUrl).map
        (fun type => "Unrecognized schema.org type " ++ type)))

/-! ### The document tree and the walker -/

mutual
/-- A JSON value of the expanded JSON-LD document.  Numbers are modelled as
integers: no claim inspects numeric values, only their dynamic type. -/
inductive JsonVal where
  | null : JsonVal
  | str : String → JsonVal
  | num : Int → JsonVal
  | bool : Bool → JsonVal
  | arr : JsonList → JsonVal
  | obj : JsonFields → JsonVal
/-- A list of JSON values (the elements of a JSON array). -/
inductive JsonList where
  | nil : JsonList
  | cons : JsonVal → JsonList → JsonList
/-- The ordered key/value fields of a JSON object. -/
inductive JsonFields where
  | nil : JsonFields
  | cons : String → JsonVal → JsonFields → JsonFields
end

/-- `Object.keys` of a JSON object: its field names in order. -/
def fieldKeys : JsonFields → List String
  | .nil => []
  | .cons key _ rest => key :: fieldKeys rest

/-- `Object.keys` of a JSON array: the decimal index strings. -/
def elemKeys : JsonList → Nat → List String
  | .nil, _ => []
  | .cons _ rest, i => toString i :: elemKeys rest (i + 1)

/-- The strings of a JSON array all of whose elements are strings; `none` as
soon as one element is not a string (in the source that element would reach
`cleanName` and throw a `TypeError`). -/
def strElems : JsonList → Option (List String)
  | .nil => some []
  | .cons (.str t) rest =>
    (match strElems rest with
     | some ts => some (t :: ts)
     | none => none)
  | .cons _ _ => none

/-- Modelled from the spec: one invocation of the visitor callback of the
tree-walking collaborator `helpers/walk-object.js` (not part of the sources
given): the visited key, its value, the path from the root including the
visited key, and the sibling keys of the enclosing object. -/
structure Visit where
  key : String
  value : JsonVal
  path : List String
  siblingKeys : List String

mutual
/-- Modelled from the spec: the traversal order of the collaborator
`helpers/walk-object.js` (not part of the sources given) — visit every
key/value pair at every nesting depth, depth-first in insertion order,
carrying the path of keys from the root; a pair is visited before the pairs
inside its value.  Leaves (null, strings, numbers, booleans) contain no
key/value pairs. -/
def walkVisits : JsonVal → List String → List Visit
  | .null, _ => []
  | .str _, _ => []
  | .num _, _ => []
  | .bool _, _ => []
  | .arr es, path => walkElems es 0 (elemKeys es 0) path
  | .obj fields, path => walkFields fields (fieldKeys fields) path
/-- Modelled from the spec: the walk of the elements of an array, whose
key/value pairs are index strings paired with elements. -/
def walkElems : JsonList → Nat → List String → List String → List Visit
  | .nil, _, _, _ => []
  | .cons v rest, i, keys, path =>
    ⟨toString i, v, path ++ [toString i], keys⟩ ::
      (walkVisits v (path ++ [toString i]) ++ walkElems rest (i + 1) keys path)
/-- Modelled from the spec: the walk of the fields of an object. -/
def walkFields : JsonFields → List String → List String → List Visit
  | .nil, _, _ => []
  | .cons key v rest, keys, path =>
    ⟨key, v, path ++ [key], keys⟩ ::
      (walkVisits v (path ++ [key]) ++ walkFields rest keys path)
end

/-! ### `validateSchemaOrg` -/

/-- One entry of the result of `validateSchemaOrg`. -/
structure VError where
  path : String
  message : String
deriving DecidableEq, Repr

/-- The raw `@type` value of the document handed to `validateObjectKeys`:
dispatch a `JsonVal` into the dynamic shape the source branches on.  An array
containing a non-string makes the source throw a `TypeError` inside
`cleanName` (modelled as `none` here, turned into an error below). -/
def toTypeOrTypes : JsonVal → Option TypeOrTypes
  | .str t => some (.str t)
  | .arr es =>
    (match strElems es with
     | some ts => some (.arr ts)
     | none => none)
  | _ => some .other

/-- `validateObjectKeys` applied to a raw JSON value as found in the
document. -/
def validateObjectKeysV (s : SchemaStructure) (fuel : Nat) (value : JsonVal)
    (keys : List String) : Option (Except String (List String)) :=
  match toTypeOrTypes value with
  | none => some (Except.error "TypeError: type.replace is not a function")
  | some typeOrTypes => validateObjectKeysF s fuel typeOrTypes keys

/-- The walker callback of `validateSchemaOrg` folded over the visit list:
at every visit of the `@type` keyword, validate the sibling keys and append
one `VError` per message, whose path is the visit path without its last
segment, each segment cleaned, joined by `/` and prefixed by `/`. -/
def processVisits (s : SchemaStructure) (fuel : Nat) :
    List Visit → List VError → Option (Except String (List VError))
  | [], errors => some (Except.ok errors)
  | visit :: rest, errors =>
    if visit.key = "@type" then
      match validateObjectKeysV s fuel visit.value visit.siblingKeys with
      | none => none
      | some (Except.error e) => some (Except.error e)
      | some (Except.ok messages) =>
        processVisits s fuel rest (errors ++ messages.map (fun message =>
          ⟨"/" ++ String.intercalate "/" ((visit.path.dropLast).map cleanName), message⟩))
    else
      processVisits s fuel rest errors

/-- The single-element-array unwrap of `validateSchemaOrg`. -/
def unwrapSingle : JsonVal → JsonVal
  | .arr (.cons x .nil) => x
  | v => v

/-- `validateSchemaOrg(expandedObj)` of the source: empty result on `null`,
otherwise unwrap a single-element array and fold the walker callback over
the traversal. -/
def validateSchemaOrgF (s : SchemaStructure) (fuel : Nat) (expandedObj : JsonVal) :
    Option (Except String (List VError)) :=
  match expandedObj with
  | .null => some (Except.ok [])
  | v => processVisits s fuel (walkVisits (unwrapSingle v) []) []

example : cleanName "https://schema.org/Person" = "Person" := rfl
example : cleanName "xhttp://schema.org/y" = "xy" := rfl
example : cleanName "http://schema.org/http://schema.org/x" = "http://schema.org/x" := rfl

/-! ### Helper lemmas about the string functions -/

/-- A string without any match of the schema.org URL pattern is left
unchanged by the replacement. -/
theorem replaceFirst_of_no_match (l : List Char) (h : containsSchemaUrlCh l = false) :
    replaceFirstSchemaUrl l = l := by
  induction l with
  | nil => rfl
  | cons c cs ih =>
    rw [containsSchemaUrlCh, Bool.or_eq_false_iff] at h
    cases hm : matchSchemaUrl (c :: cs) with
    | some rest => rw [hm] at h; simp at h
    | none => simp only [replaceFirstSchemaUrl, hm]; rw [ih h.2]
example :
    validateObjectKeysF ⟨[⟨"Thing", []⟩], [⟨"name", ["Thing"]⟩]⟩ 2 (.str "Thing")
      ["@id", "http://schema.org/name", "http://schema.org/bogus"] =
    some (Except.ok ["Unexpected property \"bogus\""]) := rfl
example :
    validateSchemaOrgF ⟨[], []⟩ 2
      (.obj (.cons "a" (.obj (.cons "@type" (.str "https://schema.org/Nope") .nil)) .nil)) =
    some (Except.ok [⟨"/a", "Unrecognized schema.org type https://schema.org/Nope"⟩]) := rfl

/-! ### C3: idempotence of cleanName -/

/-- C3 counterexample: `cleanName` is not idempotent.  The regex is not
anchored and `replace` deletes only the first match, so a string holding the
pattern twice loses one occurrence per application. -/
theorem cleanName_not_idempotent :
    cleanName (cleanName "http://schema.org/http://schema.org/x") ≠
      cleanName "http://schema.org/http://schema.org/x" := by decide

/-- C3 (amended): `cleanName` is idempotent on every string whose image under
`cleanName` holds no occurrence of the schema.org URL pattern; the second
application then has nothing left to delete. -/
theorem cleanName_idem_of_no_second_match (x : String)
    (h : containsSchemaUrl (cleanName x) = false) :
    cleanName (cleanName x) = cleanName x := by
  show (⟨replaceFirstSchemaUrl (cleanName x).data⟩ : String) = cleanName x
  rw [replaceFirst_of_no_match _ h]

/-- C3 witness: a concrete string on which the amended idempotence applies. -/
theorem cleanName_idem_of_no_second_match_witness :
    cleanName (cleanName "https://schema.org/Person") = cleanName "https://schema.org/Person" :=
  cleanName_idem_of_no_second_match "https://schema.org/Person" (by decide)

/-! ### C8: what cleanName removes -/

/-- C8 counterexample: a schema.org URL occurring elsewhere than at the start
is removed, so the string is not returned unchanged although the leading
prefix is absent. -/
theorem cleanName_removes_inner_occurrence :
    cleanName "xhttp://schema.org/y" ≠ "xhttp://schema.org/y" := by decide

/-- C8 (amended): `cleanName` strips a leading `http://schema.org/` or
`https://schema.org/` prefix, and returns the string unchanged whenever the
schema.org URL pattern occurs nowhere in the string; it is pure and total.
(The counterexample above shows a non-leading occurrence is removed too:
`replace` deletes the first match anywhere.) -/
theorem cleanName_first_occurrence_semantics :
    (∀ rest : String, cleanName ("http://schema.org/" ++ rest) = rest) ∧
    (∀ rest : String, cleanName ("https://schema.org/" ++ rest) = rest) ∧
    (∀ x : String, containsSchemaUrl x = false → cleanName x = x) := by
  refine ⟨fun rest => rfl, fun rest => rfl, fun x h => ?_⟩
  show (⟨replaceFirstSchemaUrl x.data⟩ : String) = x
  rw [replaceFirst_of_no_match _ h]

/-- C8 witness: the three parts of the amended claim at concrete strings. -/
theorem cleanName_first_occurrence_semantics_witness :
    cleanName ("http://schema.org/" ++ "name") = "name" ∧
    cleanName ("https://schema.org/" ++ "Person") = "Person" ∧
    cleanName "plainName" = "plainName" :=
  ⟨cleanName_first_occurrence_semantics.1 "name",
   cleanName_first_occurrence_semantics.2.1 "Person",
   cleanName_first_occurrence_semantics.2.2 "plainName" (by decide)⟩

/-! ### C10: the empty type array -/

/-- C10: with an empty array of declared types no type is unknown and the
safelist is empty, so every key that does not start with `@` is reported as
an unexpected property (cleaned and stripped of a constraint marker), and
the result is empty exactly when every key starts with `@`. -/
theorem validateObjectKeys_empty_type_list (s : SchemaStructure) (fuel : Nat)
    (keys : List String) :
    validateObjectKeysF s fuel (.arr []) keys =
      some (Except.ok ((keys.filter (fun key => !isKeywordKey key)).map
        (fun key => "Unexpected property \"" ++ stripConstraint (cleanName key) ++ "\""))) ∧
    (validateObjectKeysF s fuel (.arr []) keys = some (Except.ok []) ↔
      ∀ key ∈ keys, isKeywordKey key = true) := by
  have h1 : validateObjectKeysF s fuel (.arr []) keys =
      some (Except.ok ((keys.filter (fun key => !isKeywordKey key)).map
        (fun key => "Unexpected property \"" ++ stripConstraint (cleanName key) ++ "\""))) := by
    simp [validateObjectKeysF, typesOf, buildSafelist, List.map_map, Function.comp]
  refine ⟨h1, ?_⟩
  rw [h1]
  simp [List.filter_eq_nil_iff]

/-! ### C9: keys starting with `@` are irrelevant -/

/-- C9: when all declared types are known, `validateObjectKeys` depends only
on the keys that do not start with `@`: two key lists with the same
`@`-free part give the same result, so adding or removing `@`-prefixed keys
never changes the returned error sequence. -/
theorem validateObjectKeys_keyword_keys_irrelevant (s : SchemaStructure) (fuel : Nat)
    (typeOrTypes : TypeOrTypes) (keys1 keys2 : List String)
    (_hknown : ∀ t ∈ (typesOf typeOrTypes).getD [], (findType s t).isSome = true)
    (hkeys : keys1.filter (fun key => !isKeywordKey key) =
      keys2.filter (fun key => !isKeywordKey key)) :
    validateObjectKeysF s fuel typeOrTypes keys1 =
      validateObjectKeysF s fuel typeOrTypes keys2 := by
  simp only [validateObjectKeysF]
  rw [hkeys]

/-- C9 witness: a concrete call where dropping the `@`-prefixed keys leaves
the result unchanged. -/
theorem validateObjectKeys_keyword_keys_irrelevant_witness :
    validateObjectKeysF ⟨[⟨"Thing", []⟩], [⟨"name", ["Thing"]⟩]⟩ 2 (.str "Thing")
        ["@id", "name", "@context"] =
      validateObjectKeysF ⟨[⟨"Thing", []⟩], [⟨"name", ["Thing"]⟩]⟩ 2 (.str "Thing") ["name"] :=
  validateObjectKeys_keyword_keys_irrelevant ⟨[⟨"Thing", []⟩], [⟨"name", ["Thing"]⟩]⟩ 2
    (.str "Thing") ["@id", "name", "@context"] ["name"] (by decide) (by decide)

/-! ### C1: unknown declared types short-circuit the property checks -/

/-- C1: as soon as one declared type is not found in the graph,
`validateObjectKeys` returns exactly the `Unrecognized schema.org type`
messages for the unknown types matching the schema.org URL pattern (in
order, one per unknown occurrence), so no property membership is examined,
no fuel is consumed, and no `Unexpected property` message can co-occur. -/
theorem validateObjectKeys_unknown_type_short_circuit (s : SchemaStructure) (fuel : Nat)
    (typeOrTypes : TypeOrTypes) (types keys : List String)
    (htypes : typesOf typeOrTypes = some types)
    (hunknown : types.filter (fun t => (findType s t).isNone) ≠ []) :
    validateObjectKeysF s fuel typeOrTypes keys =
      some (Except.ok (((types.filter (fun t => (findType s t).isNone)).filter
        containsSchemaUrl).map (fun type => "Unrecognized schema.org type " ++ type))) := by
  have hempty : (types.filter (fun t => (findType s t).isNone)).isEmpty = false := by
    cases hf : types.filter (fun t => (findType s t).isNone) with
    | nil => exact absurd hf hunknown
    | cons a as => rfl
  simp [validateObjectKeysF, htypes, hempty]

/-- C1 witness: one unknown schema.org-namespaced type and one unknown
foreign type yield exactly one message and suppress the property check that
would otherwise flag the key `x`. -/
theorem validateObjectKeys_unknown_type_short_circuit_witness :
    validateObjectKeysF ⟨[], []⟩ 0 (.arr ["https://schema.org/Foo", "Bar"]) ["x"] =
      some (Except.ok ["Unrecognized schema.org type https://schema.org/Foo"]) :=
  validateObjectKeys_unknown_type_short_circuit ⟨[], []⟩ 0
    (.arr ["https://schema.org/Foo", "Bar"]) ["https://schema.org/Foo", "Bar"] ["x"]
    rfl (by decide)

/-! ### C2: termination of the property resolution -/

/-- On the one-type graph whose only type is its own parent, the resolution
of that type runs out of any amount of fuel. -/
theorem getPropsForTypeF_cycle_none (fuel : Nat) :
    getPropsForTypeF ⟨[⟨"A", ["A"]⟩], []⟩ fuel "A" = none := by
  induction fuel with
  | zero => rfl
  | succ n ih =>
    show concatParentProps (getPropsForTypeF ⟨[⟨"A", ["A"]⟩], []⟩ n) ["A"] [] = none
    simp only [concatParentProps, ih]

/-- C2 counterexample: `getPropsForType` does not terminate on every type
graph.  The source walks parent links with no visited-type guard, so on a
graph whose parent links form a cycle the recursion never returns: no fuel
bound suffices. -/
theorem getPropsForType_cycle_divergence :
    ¬ ∃ fuel : Nat, (getPropsForTypeF ⟨[⟨"A", ["A"]⟩], []⟩ fuel "A").isSome = true := by
  rintro ⟨fuel, h⟩
  rw [getPropsForTypeF_cycle_none fuel] at h
  exact absurd h (by simp)

/-- If every parent in the list resolves within the given fuel, the
concatenation over the parents terminates. -/
theorem concatParentProps_isSome (resolve : String → Option (Except String (List String)))
    (ts acc : List String) (h : ∀ t ∈ ts, (resolve t).isSome = true) :
    (concatParentProps resolve ts acc).isSome = true := by
  induction ts generalizing acc with
  | nil => rfl
  | cons t rest ih =>
    have ht := h t (List.mem_cons_self t rest)
    cases hres : resolve t with
    | none => rw [hres] at ht; exact absurd ht (by simp)
    | some r =>
      cases r with
      | error e => simp [concatParentProps, hres]
      | ok ps =>
        simp only [concatParentProps, hres]
        exact ih (acc ++ ps) (fun u hu => h u (List.mem_cons_of_mem t hu))

/-- C2 (amended): `getPropsForType` terminates on every type graph whose
parent links admit a strictly decreasing rank on cleaned names — in
particular on every acyclic parent hierarchy — with recursion depth bounded
by the rank; on a graph whose parent links contain a cycle reachable from
the queried type it fails to terminate, as the counterexample shows, because
the source tracks no visited types. -/
theorem getPropsForType_terminates_of_rank (s : SchemaStructure) (rank : String → Nat)
    (hr : ∀ tn ∈ s.types, ∀ p ∈ tn.parent, rank (cleanName p) < rank tn.name)
    (type : String) (fuel : Nat) (hfuel : rank (cleanName type) < fuel) :
    (getPropsForTypeF s fuel type).isSome = true := by
  induction fuel generalizing type with
  | zero => omega
  | succ n ih =>
    cases hft : findType s type with
    | none => simp [getPropsForTypeF, hft]
    | some tn =>
      simp only [getPropsForTypeF, hft]
      have hmem : tn ∈ s.types := List.mem_of_find?_eq_some hft
      have hname : tn.name = cleanName type := by
        have := List.find?_some hft
        exact eq_of_beq this
      apply concatParentProps_isSome
      intro p hp
      apply ih
      have := hr tn hmem p hp
      rw [hname] at this
      omega

/-- C2 witness: on a concrete two-type linear hierarchy the resolution
terminates within fuel two. -/
theorem getPropsForType_terminates_of_rank_witness :
    (getPropsForTypeF ⟨[⟨"Person", ["Thing"]⟩, ⟨"Thing", []⟩], []⟩ 2 "Person").isSome = true :=
  getPropsForType_terminates_of_rank ⟨[⟨"Person", ["Thing"]⟩, ⟨"Thing", []⟩], []⟩
    (fun name => if name = "Thing" then 0 else 1) (by decide) "Person" 2 (by decide)

/-! ### C6: inheritance monotonicity -/

/-- The accumulated list is contained in a successful result of the parent
concatenation. -/
theorem concatParentProps_acc_subset (resolve : String → Option (Except String (List String)))
    (ts : List String) :
    ∀ acc res, concatParentProps resolve ts acc = some (Except.ok res) → acc ⊆ res := by
  induction ts with
  | nil =>
    intro acc res h
    simp only [concatParentProps, Option.some.injEq, Except.ok.injEq] at h
    exact h ▸ List.Subset.refl acc
  | cons t rest ih =>
    intro acc res h
    cases hres : resolve t with
    | none => rw [concatParentProps, hres] at h; cases h
    | some r =>
      cases r with
      | error e => rw [concatParentProps, hres] at h; cases h
      | ok ps =>
        rw [concatParentProps, hres] at h
        exact fun x hx => ih (acc ++ ps) res h (List.mem_append_left ps hx)

/-- Every successfully resolved parent contributes all of its properties to a
successful result of the parent concatenation. -/
theorem concatParentProps_parent_subset (resolve : String → Option (Except String (List String)))
    (ts : List String) :
    ∀ acc res, concatParentProps resolve ts acc = some (Except.ok res) →
      ∀ t ∈ ts, ∀ ps, resolve t = some (Except.ok ps) → ps ⊆ res := by
  induction ts with
  | nil => intro acc res _ t ht; cases ht
  | cons t rest ih =>
    intro acc res h u hu ps hps
    cases hres : resolve t with
    | none => rw [concatParentProps, hres] at h; cases h
    | some r =>
      cases r with
      | error e => rw [concatParentProps, hres] at h; cases h
      | ok qs =>
        rw [concatParentProps, hres] at h
        rcases List.mem_cons.mp hu with rfl | hmem
        · have hq : ps = qs := by
            rw [hres] at hps
            exact (Except.ok.injEq _ _ ▸ Option.some.injEq _ _ ▸ hps : _) ▸ rfl
          subst hq
          exact fun x hx =>
            concatParentProps_acc_subset resolve rest (acc ++ ps) res h
              (List.mem_append_right acc hx)
        · exact ih (acc ++ qs) res h u hmem ps hps

/-- C6: when `getPropsForType` returns a property list for a type found in
the graph, the successfully resolved property list of each of its direct
parents is contained in it (inheritance monotonicity). -/
theorem getPropsForType_includes_parent_props (s : SchemaStructure) (fuel : Nat)
    (type : String) (tn : SchemaEntry) (p : String) (propsT propsP : List String)
    (hft : findType s type = some tn) (hp : p ∈ tn.parent)
    (hT : getPropsForTypeF s (fuel + 1) type = some (Except.ok propsT))
    (hP : getPropsForTypeF s fuel p = some (Except.ok propsP)) :
    propsP ⊆ propsT := by
  simp only [getPropsForTypeF, hft] at hT
  exact concatParentProps_parent_subset (getPropsForTypeF s fuel) tn.parent _ propsT hT
    p hp propsP hP

/-- C6 witness: on a concrete `Person`-inherits-`Thing` graph, the inherited
property list of the parent is contained in the child's property list. -/
theorem getPropsForType_includes_parent_props_witness :
    (["name"] : List String) ⊆ ["jobTitle", "name"] :=
  getPropsForType_includes_parent_props
    ⟨[⟨"Person", ["Thing"]⟩, ⟨"Thing", []⟩], [⟨"name", ["Thing"]⟩, ⟨"jobTitle", ["Person"]⟩]⟩
    1 "Person" ⟨"Person", ["Thing"]⟩ "Thing" ["jobTitle", "name"] ["name"]
    rfl (by decide) rfl rfl

/-! ### C4: nothing is thrown under the type-graph invariant -/

/-- If no parent in the list resolves to a thrown error, the concatenation
over the parents throws no error. -/
theorem concatParentProps_no_throw (resolve : String → Option (Except String (List String)))
    (ts : List String) :
    (∀ t ∈ ts, ∀ e, resolve t ≠ some (Except.error e)) →
    ∀ acc e, concatParentProps resolve ts acc ≠ some (Except.error e) := by
  induction ts with
  | nil => intro _ acc e hc; exact absurd hc (by simp [concatParentProps])
  | cons t rest ih =>
    intro h acc e hc
    cases hres : resolve t with
    | none => rw [concatParentProps, hres] at hc; cases hc
    | some r =>
      cases r with
      | error e2 => exact h t (List.mem_cons_self t rest) e2 hres
      | ok ps =>
        rw [concatParentProps, hres] at hc
        exact ih (fun u hu e2 => h u (List.mem_cons_of_mem t hu) e2) (acc ++ ps) e hc

/-- Under the invariant that every name in a parent list resolves,
`getPropsForType` throws no error on a type it can find. -/
theorem getPropsForType_no_throw (s : SchemaStructure)
    (hr : ∀ tn ∈ s.types, ∀ p ∈ tn.parent, (findType s p).isSome = true) :
    ∀ fuel type, (findType s type).isSome = true →
      ∀ e, getPropsForTypeF s fuel type ≠ some (Except.error e) := by
  intro fuel
  induction fuel with
  | zero => intro type _ e hc; cases hc
  | succ n ih =>
    intro type htype e
    cases hft : findType s type with
    | none => rw [hft] at htype; cases htype
    | some tn =>
      simp only [getPropsForTypeF, hft]
      apply concatParentProps_no_throw
      intro p hp
      exact ih p (hr tn (List.mem_of_find?_eq_some hft) p hp)

/-- If `getPropsForType` throws on no listed type, building the safelist
throws no error. -/
theorem buildSafelist_no_throw (resolve : String → Option (Except String (List String)))
    (ts : List String) :
    (∀ t ∈ ts, ∀ e, resolve t ≠ some (Except.error e)) →
    ∀ acc e, buildSafelist resolve ts acc ≠ some (Except.error e) := by
  induction ts with
  | nil => intro _ acc e hc; exact absurd hc (by simp [buildSafelist])
  | cons t rest ih =>
    intro h acc e hc
    cases hres : resolve t with
    | none => rw [buildSafelist, hres] at hc; cases hc
    | some r =>
      cases r with
      | error e2 => exact h t (List.mem_cons_self t rest) e2 hres
      | ok ps =>
        rw [buildSafelist, hres] at hc
        exact ih (fun u hu e2 => h u (List.mem_cons_of_mem t hu) e2) (acc ++ ps) e hc

/-- Under the parent-resolution invariant `validateObjectKeys` never throws:
it checks that every declared type exists before resolving properties, so
the `Unable to get props for missing type` error is unreachable. -/
theorem validateObjectKeys_no_throw (s : SchemaStructure)
    (hr : ∀ tn ∈ s.types, ∀ p ∈ tn.parent, (findType s p).isSome = true)
    (fuel : Nat) (typeOrTypes : TypeOrTypes) (keys : List String) :
    ∀ e, validateObjectKeysF s fuel typeOrTypes keys ≠ some (Except.error e) := by
  intro e
  cases htot : typesOf typeOrTypes with
  | none => simp [validateObjectKeysF, htot]
  | some types =>
    by_cases hemp : (types.filter (fun t => (findType s t).isNone)).isEmpty = true
    · have hall : ∀ t ∈ types, (findType s t).isSome = true := by
        rw [List.isEmpty_iff, List.filter_eq_nil_iff] at hemp
        intro t ht
        have hne := hemp t ht
        cases hft : findType s t with
        | none => rw [hft] at hne; simp at hne
        | some _ => rfl
      simp only [validateObjectKeysF, htot, hemp, if_true]
      cases hb : buildSafelist (getPropsForTypeF s fuel) types [] with
      | none => simp
      | some r =>
        cases r with
        | error e2 =>
          exact absurd hb (buildSafelist_no_throw (getPropsForTypeF s fuel) types
            (fun t ht e3 => getPropsForType_no_throw s hr fuel t (hall t ht) e3) [] e2)
        | ok safelist => simp
    · have hemp2 : (types.filter (fun t => (findType s t).isNone)).isEmpty = false :=
        Bool.not_eq_true _ ▸ hemp
      simp [validateObjectKeysF, htot, hemp2]

/-- If every visited `@type` value has a valid dynamic shape, folding the
walker callback over the visits never throws under the parent-resolution
invariant. -/
theorem processVisits_no_throw (s : SchemaStructure)
    (hr : ∀ tn ∈ s.types, ∀ p ∈ tn.parent, (findType s p).isSome = true) (fuel : Nat) :
    ∀ visits : List Visit,
      (∀ vis ∈ visits, vis.key = "@type" → (toTypeOrTypes vis.value).isSome = true) →
      ∀ errors e, processVisits s fuel visits errors ≠ some (Except.error e) := by
  intro visits
  induction visits with
  | nil => intro _ errors e hc; exact absurd hc (by simp [processVisits])
  | cons vis rest ih =>
    intro h errors e hc
    by_cases hk : vis.key = "@type"
    · rw [processVisits, if_pos hk] at hc
      cases hvv : validateObjectKeysV s fuel vis.value vis.siblingKeys with
      | none => rw [hvv] at hc; cases hc
      | some r =>
        cases r with
        | error e2 =>
          have htt := h vis (List.mem_cons_self vis rest) hk
          cases htt2 : toTypeOrTypes vis.value with
          | none => rw [htt2] at htt; cases htt
          | some tot =>
            rw [validateObjectKeysV, htt2] at hvv
            exact validateObjectKeys_no_throw s hr fuel tot vis.siblingKeys e2 hvv
        | ok messages =>
          rw [hvv] at hc
          exact ih (fun u hu => h u (List.mem_cons_of_mem vis hu)) _ e hc
    · rw [processVisits, if_neg hk] at hc
      exact ih (fun u hu => h u (List.mem_cons_of_mem vis hu)) errors e hc

/-- C4: under the type-graph invariant that every name in a parent list
resolves, and for a document whose visited `@type` values all have the
string-or-string-array shape, `validateSchemaOrg` throws nothing to its
caller: every reportable condition surfaces in the returned sequence. -/
theorem validateSchemaOrg_never_throws (s : SchemaStructure)
    (hr : ∀ tn ∈ s.types, ∀ p ∈ tn.parent, (findType s p).isSome = true)
    (fuel : Nat) (expandedObj : JsonVal)
    (hdoc : ∀ vis ∈ walkVisits (unwrapSingle expandedObj) [], vis.key = "@type" →
      (toTypeOrTypes vis.value).isSome = true) :
    ∀ e, validateSchemaOrgF s fuel expandedObj ≠ some (Except.error e) := by
  intro e hc
  cases expandedObj with
  | null => exact absurd hc (by simp [validateSchemaOrgF])
  | str a => exact processVisits_no_throw s hr fuel _ hdoc [] e hc
  | num a => exact processVisits_no_throw s hr fuel _ hdoc [] e hc
  | bool a => exact processVisits_no_throw s hr fuel _ hdoc [] e hc
  | arr a => exact processVisits_no_throw s hr fuel _ hdoc [] e hc
  | obj a => exact processVisits_no_throw s hr fuel _ hdoc [] e hc

/-- C4 witness: a well-formed node on a two-type graph with resolvable
parent links never produces the missing-type exception. -/
theorem validateSchemaOrg_never_throws_witness :
    validateSchemaOrgF ⟨[⟨"Person", ["Thing"]⟩, ⟨"Thing", []⟩], [⟨"name", ["Thing"]⟩]⟩ 3
      (.obj (.cons "@type" (.str "Person")
        (.cons "http://schema.org/name" (.str "x") .nil))) ≠
      some (Except.error "Unable to get props for missing type \"Thing\"") :=
  validateSchemaOrg_never_throws ⟨[⟨"Person", ["Thing"]⟩, ⟨"Thing", []⟩], [⟨"name", ["Thing"]⟩]⟩
    (by decide) 3
    (.obj (.cons "@type" (.str "Person") (.cons "http://schema.org/name" (.str "x") .nil)))
    (by decide) "Unable to get props for missing type \"Thing\""

/-! ### C7: unwrapping a single-element array -/

/-- C7: validating a single-element array holding one expanded object gives
exactly the result of validating that object directly — the source unwraps
the array before traversing. -/
theorem validateSchemaOrg_unwraps_singleton (s : SchemaStructure) (fuel : Nat)
    (fields : JsonFields) :
    validateSchemaOrgF s fuel (.arr (.cons (.obj fields) .nil)) =
      validateSchemaOrgF s fuel (.obj fields) := rfl

/-! ### C5: the path attached to every reported message -/

/-- Every error in a successful fold of the walker callback is either
carried over from the accumulator or produced at some visit of the `@type`
keyword, with the path of the source: the visit path without its last
segment, each segment cleaned, joined by `/` and prefixed by `/`. -/
theorem processVisits_mem_shape (s : SchemaStructure) (fuel : Nat) :
    ∀ (visits : List Visit) (acc errs : List VError),
      processVisits s fuel visits acc = some (Except.ok errs) →
      ∀ err ∈ errs, err ∈ acc ∨ ∃ vis ∈ visits, vis.key = "@type" ∧
        ∃ messages, validateObjectKeysV s fuel vis.value vis.siblingKeys =
            some (Except.ok messages) ∧
          ∃ message ∈ messages,
            err = ⟨"/" ++ String.intercalate "/" ((vis.path.dropLast).map cleanName),
              message⟩ := by
  intro visits
  induction visits with
  | nil =>
    intro acc errs h err herr
    simp only [processVisits, Option.some.injEq, Except.ok.injEq] at h
    exact Or.inl (h ▸ herr)
  | cons vis rest ih =>
    intro acc errs h err herr
    by_cases hk : vis.key = "@type"
    · rw [processVisits, if_pos hk] at h
      cases hvv : validateObjectKeysV s fuel vis.value vis.siblingKeys with
      | none => rw [hvv] at h; cases h
      | some r =>
        cases r with
        | error e => rw [hvv] at h; cases h
        | ok messages =>
          rw [hvv] at h
          rcases ih _ errs h err herr with hacc | ⟨vis2, hvis2, rest2⟩
          · rcases List.mem_append.mp hacc with h1 | h2
            · exact Or.inl h1
            · rcases List.mem_map.mp h2 with ⟨message, hmsg, heq⟩
              exact Or.inr ⟨vis, List.mem_cons_self vis rest, hk,
                messages, hvv, message, hmsg, heq.symm⟩
          · exact Or.inr ⟨vis2, List.mem_cons_of_mem vis hvis2, rest2⟩
    · rw [processVisits, if_neg hk] at h
      rcases ih _ errs h err herr with hacc | ⟨vis2, hvis2, rest2⟩
      · exact Or.inl hacc
      · exact Or.inr ⟨vis2, List.mem_cons_of_mem vis hvis2, rest2⟩

/-- C5: every error returned by `validateSchemaOrg` stems from a visit of the
`@type` keyword and carries the path built from the visit path with its last
segment dropped, every remaining segment cleaned of its schema.org URL
prefix, joined with `/` and a leading `/` prepended. -/
theorem validateSchemaOrg_error_path_shape (s : SchemaStructure) (fuel : Nat)
    (expandedObj : JsonVal) (errs : List VError)
    (h : validateSchemaOrgF s fuel expandedObj = some (Except.ok errs)) :
    ∀ err ∈ errs, ∃ vis ∈ walkVisits (unwrapSingle expandedObj) [],
      vis.key = "@type" ∧
      ∃ messages, validateObjectKeysV s fuel vis.value vis.siblingKeys =
          some (Except.ok messages) ∧
        ∃ message ∈ messages,
          err = ⟨"/" ++ String.intercalate "/" ((vis.path.dropLast).map cleanName),
            message⟩ := by
  intro err herr
  cases expandedObj
  case null =>
    simp only [validateSchemaOrgF, Option.some.injEq, Except.ok.injEq] at h
    subst h
    exact absurd herr (List.not_mem_nil err)
  all_goals
    rcases processVisits_mem_shape s fuel _ [] errs h err herr with hacc | hex
  all_goals first
    | exact absurd hacc (List.not_mem_nil err)
    | exact hex

/-- C5 witness: a nested violation is reported at path `/a`, built from the
visit path `["a", "@type"]` with the keyword segment dropped. -/
theorem validateSchemaOrg_error_path_shape_witness :
    ∃ vis ∈ walkVisits (unwrapSingle (JsonVal.obj (.cons "a"
        (.obj (.cons "@type" (.str "https://schema.org/Nope") .nil)) .nil))) [],
      vis.key = "@type" ∧
      ∃ messages, validateObjectKeysV ⟨[], []⟩ 1 vis.value vis.siblingKeys =
          some (Except.ok messages) ∧
        ∃ message ∈ messages,
          (⟨"/a", "Unrecognized schema.org type https://schema.org/Nope"⟩ : VError) =
            ⟨"/" ++ String.intercalate "/" ((vis.path.dropLast).map cleanName), message⟩ :=
  validateSchemaOrg_error_path_shape ⟨[], []⟩ 1
    (JsonVal.obj (.cons "a" (.obj (.cons "@type" (.str "https://schema.org/Nope") .nil)) .nil))
    [⟨"/a", "Unrecognized schema.org type https://schema.org/Nope"⟩] rfl
    ⟨"/a", "Unrecognized schema.org type https://schema.org/Nope"⟩ (by decide)
